import Mathlib

/-!
Shallow embedding of `src/app/main.py` of the ollama-cloud-proxy repository:
the key-selection policy (`get_best_key_index`), the penalty-box state
(`key_penalty_box`, `key_backoff_levels`, `key_backoff_levels_50x`), the
dispatcher retry loop of `_handle_proxy`, the streaming tail parser
`log_stream_usage`, the health probe `perform_keys_health_check`, and the
operator endpoints `reset_key_penalty` and `penalize_key_manually`.

Python dictionaries keyed by key index are modelled as association lists
`List (Int × Int)` (keys are `Int` because the operator endpoints accept
negative indices).  Timestamps and durations are modelled as `Int`; the only
operations the source performs on them are `+`, `<`, `>` and `max`, so the
ordered-ring abstraction is faithful.  External library calls (`json.loads`,
lossy utf-8 decoding, the sqlite usage aggregation, the upstream HTTP layer)
are parameters of the embedding: the program under study only branches on
their results.
-/

namespace OllamaProxy

/-- Lookup in an association-list model of a Python dict: `d.get(i)`. -/
def dget : List (Int × Int) → Int → Option Int
  | [], _ => none
  | (k, v) :: rest, i => if k = i then some v else dget rest i

/-- Python `d[i] = v`: replace any binding of `i` by `v`. -/
def dset (d : List (Int × Int)) (i v : Int) : List (Int × Int) :=
  (i, v) :: d.filter (fun p => p.1 ≠ i)

/-- Python `del d[i]` (guarded by `if i in d`, so total deletion is faithful). -/
def ddel (d : List (Int × Int)) (i : Int) : List (Int × Int) :=
  d.filter (fun p => p.1 ≠ i)

/-- Backoff stages in seconds for 429: 15m, 1h, 2h, 6h, 12h, 24h
(`BACKOFF_STAGES` in the source). -/
def BACKOFF_STAGES : List Int := [15 * 60, 1 * 60 * 60, 2 * 60 * 60,
  6 * 60 * 60, 12 * 60 * 60, 24 * 60 * 60]

/-- Backoff stages for 50x errors: 30s, 2m, 5m, 15m, 1h
(`BACKOFF_STAGES_50X` in the source). -/
def BACKOFF_STAGES_50X : List Int := [30, 120, 300, 900, 3600]

/-- The three module-level penalty dicts of the source:
`key_penalty_box`, `key_backoff_levels`, `key_backoff_levels_50x`. -/
structure DState where
  box : List (Int × Int)
  levels429 : List (Int × Int)
  levels50x : List (Int × Int)
deriving DecidableEq, Repr

/-- The availability test of `get_best_key_index` (main.py line 342):
`i not in key_penalty_box or key_penalty_box[i] < now`. -/
def availableKey (box : List (Int × Int)) (now i : Int) : Bool :=
  match dget box i with
  | none => true
  | some e => decide (e < now)

/-- First minimum of `f` over a list, ties to the earlier element: the shape of
both the explicit `for idx in available_indices` minimum loop and the Python
`min(d, key=d.get)`. -/
def argminBy (f : Int → Int) : List Int → Option Int
  | [] => none
  | x :: xs => some (xs.foldl (fun best i => if f i < f best then i else best) x)

/-- The `available_indices` list of `get_best_key_index` (main.py lines
339-343): indices not in the penalty box (or expired) and not excluded. -/
def availableIndices (n : Nat) (box : List (Int × Int)) (now : Int)
    (exclude : List Int) : List Int :=
  ((List.range n).map Int.ofNat).filter
    (fun i => availableKey box now i && !(exclude.contains i))

/-- The `remaining_non_excluded` list (main.py lines 347-349). -/
def remainingNonExcluded (n : Nat) (exclude : List Int) : List Int :=
  ((List.range n).map Int.ofNat).filter (fun i => !(exclude.contains i))

/-- The keys of the `penalized_non_excluded` dict (main.py lines 353-357). -/
def penalizedNonExcluded (n : Nat) (box : List (Int × Int))
    (exclude : List Int) : List Int :=
  (remainingNonExcluded n exclude).filter (fun i => (dget box i).isSome)

/-- Embedding of `get_best_key_index` (main.py lines 333-394).  `n` is
`len(OLLAMA_API_KEYS)`; `usage` abstracts the sqlite 2-hour usage sum, i.e.
the composite `usage_map.get(idx, 0)`; `dbOk = false` models the `except`
branch that falls back to `available_indices[0]` on a database error. -/
def get_best_key_index (n : Nat) (box : List (Int × Int)) (now : Int)
    (usage : Int → Int) (dbOk : Bool) (exclude : List Int) : Option Int :=
  if (availableIndices n box now exclude).isEmpty then
    if (remainingNonExcluded n exclude).isEmpty then none
    else if (penalizedNonExcluded n box exclude).isEmpty then
      (remainingNonExcluded n exclude).head?
    else
      argminBy (fun i => (dget box i).getD 0) (penalizedNonExcluded n box exclude)
  else if (availableIndices n box now exclude).length = 1 then
    (availableIndices n box now exclude).head?
  else if dbOk then argminBy usage (availableIndices n box now exclude)
  else (availableIndices n box now exclude).head?

/-- Outcome of one upstream attempt as observed by `_handle_proxy`: either a
transport exception raised by `http_client.send` (its message), or a streamed
response with its status, its `x-ratelimit-reset` header value when present
and parseable as an integer (`hint`), its headers, and its body chunks. -/
inductive Outcome where
  | exn (msg : String)
  | resp (status : Nat) (hint : Option Int) (headers : List (String × String))
      (body : List (List Nat))
deriving DecidableEq, Repr

/-- What `_handle_proxy` hands back to the client: a `StreamingResponse`
(status, headers and body of the chosen upstream attempt, wrapped by
`log_stream_usage` for key `keyIndex`), or an `HTTPException`. -/
inductive ProxyResult where
  | stream (status : Nat) (headers : List (String × String))
      (body : List (List Nat)) (keyIndex : Int)
  | httpError (status : Nat) (detail : String)
deriving DecidableEq, Repr

/-- Duration update by an upstream hint: `reset_after = max(reset_after,
header_reset)` when the header parsed, `reset_after` unchanged otherwise
(main.py lines 1642-1648). -/
def hintMax (d : Int) : Option Int → Int
  | none => d
  | some v => max d v

/-- Embedding of the 429 penalty block of `_handle_proxy` (main.py lines
1636-1650): advance the 429 backoff level (saturating at the last stage),
set the penalty-box expiry to `now + max(schedule, hint)`, return the
duration. -/
def penalize429 (s : DState) (i now : Int) (hint : Option Int) : DState × Int :=
  let current_level := (dget s.levels429 i).getD (-1) + 1
  let level := min current_level ((BACKOFF_STAGES.length : Int) - 1)
  let reset_after := hintMax (BACKOFF_STAGES.getD level.toNat 0) hint
  ({ s with levels429 := dset s.levels429 i level,
            box := dset s.box i (now + reset_after) }, reset_after)

/-- Embedding of the 50x penalty block of `_handle_proxy` (main.py lines
1660-1668): advance the 5xx backoff level (saturating), set the expiry. -/
def penalize50x (s : DState) (i now : Int) : DState × Int :=
  let current_level := (dget s.levels50x i).getD (-1) + 1
  let level := min current_level ((BACKOFF_STAGES_50X.length : Int) - 1)
  let reset_after := BACKOFF_STAGES_50X.getD level.toNat 0
  ({ s with levels50x := dset s.levels50x i level,
            box := dset s.box i (now + reset_after) }, reset_after)

/-- Classification of the outcome of one attempt inside the loop body of
`_handle_proxy`: retryable statuses update the penalty state and allow a
retry, everything else is passed through; a transport exception is recorded
for the final error path. -/
inductive StepClass where
  | retryable (status : Nat) (headers : List (String × String))
      (body : List (List Nat))
  | passThrough (status : Nat) (headers : List (String × String))
      (body : List (List Nat))
  | failed (msg : String)
deriving DecidableEq, Repr

/-- The status classification of `_handle_proxy` (main.py lines 1636-1702):
429 runs the 429 penalty block, 500/502/503/504 runs the 50x penalty block,
anything else is returned to the client unchanged; a transport exception
leaves the penalty state untouched (lines 1703-1718). -/
def classify (s : DState) (i now : Int) (o : Outcome) : DState × StepClass :=
  match o with
  | .exn msg => (s, .failed msg)
  | .resp status hint headers body =>
    if status = 429 then
      ((penalize429 s i now hint).1, .retryable status headers body)
    else if status = 500 ∨ status = 502 ∨ status = 503 ∨ status = 504 then
      ((penalize50x s i now).1, .retryable status headers body)
    else (s, .passThrough status headers body)

/-- The final error path of `_handle_proxy` (main.py lines 1720-1729):
500 with the message of the last exception if one was recorded, otherwise 503. -/
def finalFailure : Option String → ProxyResult
  | some msg => .httpError 500 msg
  | none =>
    .httpError 503 "All API keys exhausted, rate-limited, or returned errors"

/-- The `available_indices` list recomputed at the top of every loop
iteration of `_handle_proxy` (main.py lines 1600-1602). -/
def attemptPool (n : Nat) (attempted : List Int) : List Int :=
  ((List.range n).map Int.ofNat).filter (fun i => !(attempted.contains i))

/-- Fallback of the key choice (main.py lines 1608-1609): take
`available_indices[0]` if the selector returned `None` or an
already-attempted index. -/
def chooseKeyFrom (attempted pool : List Int) : Option Int → Int
  | none => pool.headD 0
  | some i => if attempted.contains i then pool.headD 0 else i

/-- Key choice of one loop iteration (main.py lines 1607-1609): ask
`get_best_key_index` excluding the attempted set, fall back to
`available_indices[0]`. -/
def chooseKey (n : Nat) (s : DState) (now : Int) (usage : Int → Int)
    (dbOk : Bool) (attempted : List Int) : Int :=
  chooseKeyFrom attempted (attemptPool n attempted)
    (get_best_key_index n s.box now usage dbOk attempted)

/-- The retry loop of `_handle_proxy` (main.py lines 1596-1729).  `fuel` is
the number of iterations `for attempt in range(n)` still has to run and
`attempt` the current iteration index; the wrapper `handle_proxy` starts with
`fuel = n`, `attempt = 0`.  `attempted` accumulates the attempted key indices
most-recent first and is also returned as the attempt trace.  The upstream is
the oracle `oracle : Int → Outcome` giving the attempt outcome of each key (a key
is attempted at most once per request, so indexing by key is faithful).
A retryable or failed attempt continues only while `attempt < n - 1`, exactly
as the `if attempt < len(OLLAMA_API_KEYS) - 1: continue` guards do; on the
last iteration a retryable response falls through to the `StreamingResponse`
return (main.py lines 1655-1657, 1673-1678, 1689-1702). -/
def dispatchGo (n : Nat) (oracle : Int → Outcome) (now : Int)
    (usage : Int → Int) (dbOk : Bool) :
    Nat → Nat → DState → List Int → Option String →
    DState × List Int × ProxyResult
  | 0, _, s, attempted, lastExn => (s, attempted, finalFailure lastExn)
  | fuel + 1, attempt, s, attempted, lastExn =>
    if (attemptPool n attempted).isEmpty then (s, attempted, finalFailure lastExn)
    else
      match classify s (chooseKey n s now usage dbOk attempted) now
          (oracle (chooseKey n s now usage dbOk attempted)) with
      | (s', .retryable status headers body) =>
        if attempt < n - 1 then
          dispatchGo n oracle now usage dbOk fuel (attempt + 1) s'
            (chooseKey n s now usage dbOk attempted :: attempted) lastExn
        else (s', chooseKey n s now usage dbOk attempted :: attempted,
          .stream status headers body (chooseKey n s now usage dbOk attempted))
      | (s', .passThrough status headers body) =>
        (s', chooseKey n s now usage dbOk attempted :: attempted,
          .stream status headers body (chooseKey n s now usage dbOk attempted))
      | (s', .failed msg) =>
        if attempt < n - 1 then
          dispatchGo n oracle now usage dbOk fuel (attempt + 1) s'
            (chooseKey n s now usage dbOk attempted :: attempted) (some msg)
        else (s', chooseKey n s now usage dbOk attempted :: attempted,
          finalFailure (some msg))

/-- Embedding of the dispatch section of `_handle_proxy` for one inbound
request: run the attempt loop from an empty `attempted_indices` set with no
recorded exception.  Returns the final penalty state, the attempt trace
(most-recent first) and the response handed to the client. -/
def handle_proxy (n : Nat) (oracle : Int → Outcome) (now : Int)
    (usage : Int → Int) (dbOk : Bool) (s : DState) :
    DState × List Int × ProxyResult :=
  dispatchGo n oracle now usage dbOk n 0 s [] none

/-- A status the dispatcher treats as retryable: 429 or 500/502/503/504. -/
def retryableStatus (status : Nat) : Prop :=
  status = 429 ∨ status = 500 ∨ status = 502 ∨ status = 503 ∨ status = 504

instance (status : Nat) : Decidable (retryableStatus status) := by
  unfold retryableStatus
  infer_instance

/-- JSON values as produced by `json.loads`, for the fields of the decoded
stats object. -/
inductive Json where
  | null
  | bool (b : Bool)
  | num (n : Int)
  | str (s : String)
  | arr (elems : List Json)
  | obj (fields : List (String × Json))

/-- Python truthiness of a decoded JSON value, as used by
`if data.get("done") ...` (main.py line 1566). -/
def Json.truthy : Json → Bool
  | .null => false
  | .bool b => b
  | .num n => !(n == 0)
  | .str s => !(s == "")
  | .arr elems => !elems.isEmpty
  | .obj fields => !fields.isEmpty

/-- Lookup of a field in a decoded JSON object (`data.get(k)` / `k in data`). -/
def jlookup : List (String × Json) → String → Option Json
  | [], _ => none
  | (k, v) :: rest, key => if k = key then some v else jlookup rest key

/-- The values handed to `record_usage` for one stream (main.py lines
1567-1578): `data.get("model", "unknown")`, `data.get("prompt_eval_count",
0)`, `data.get("eval_count", 0)`. -/
structure UsageRecord where
  model : Json
  prompt_tokens : Json
  completion_tokens : Json

/-- Field extraction with the source's defaults (main.py lines 1567-1569). -/
def usageRecordOf (fields : List (String × Json)) : UsageRecord where
  model := (jlookup fields "model").getD (.str "unknown")
  prompt_tokens := (jlookup fields "prompt_eval_count").getD (.num 0)
  completion_tokens := (jlookup fields "eval_count").getD (.num 0)

/-- The stats test of main.py line 1566:
`data.get("done") or "eval_count" in data`. -/
def statsCondition (fields : List (String × Json)) : Bool :=
  (match jlookup fields "done" with
   | none => false
   | some v => v.truthy) || (jlookup fields "eval_count").isSome

/-- The reverse line scan of `log_stream_usage` (main.py lines 1558-1590):
skip lines that are empty after stripping or do not both start with a left
brace and end with a right brace; skip lines `json.loads` rejects
(`loads` returns `none`); take the first scanned object satisfying the stats
condition.  `loads` abstracts `json.loads` restricted to these lines (each
starts with a left brace, so a successful parse is an object). -/
def scanLines (loads : String → Option (List (String × Json))) :
    List String → Option UsageRecord
  | [] => none
  | l :: rest =>
    let line := l.trim
    if line.isEmpty || !(line.startsWith "\x7b" && line.endsWith "\x7d") then
      scanLines loads rest
    else
      match loads line with
      | none => scanLines loads rest
      | some fields =>
        if statsCondition fields then some (usageRecordOf fields)
        else scanLines loads rest

/-- Python `b[-k:]`: the last `k` elements (all of them when shorter). -/
def takeLast (k : Nat) (l : List Nat) : List Nat := l.drop (l.length - k)

/-- The end-of-stream extraction of `log_stream_usage` (main.py lines
1550-1560): strip the lossily decoded tail, split on newlines, scan the lines
in reverse. -/
def extractUsage (loads : String → Option (List (String × Json)))
    (decoded_tail : String) : Option UsageRecord :=
  scanLines loads ((decoded_tail.trim.splitOn "\n").reverse)

/-- One chunk step of the `log_stream_usage` generator (main.py lines
1546-1548): yield the chunk verbatim, keep only the last 4096 bytes of the
tail buffer. -/
def streamStep (acc : List (List Nat) × List Nat) (chunk : List Nat) :
    List (List Nat) × List Nat :=
  (acc.1 ++ [chunk], takeLast 4096 (acc.2 ++ chunk))

/-- Embedding of `log_stream_usage` (main.py lines 1539-1593) over the full
chunk sequence of one upstream body: the bytes yielded to the client, and the
usage record extracted from the tail at end-of-stream (the generator calls
`record_usage` exactly once iff this is `some`).  `decode` abstracts
`bytes.decode(errors="ignore")`. -/
def log_stream_usage (loads : String → Option (List (String × Json)))
    (decode : List Nat → String) (chunks : List (List Nat)) :
    List (List Nat) × Option UsageRecord :=
  ((chunks.foldl streamStep ([], [])).1,
    extractUsage loads (decode (chunks.foldl streamStep ([], [])).2))

/-- A line's qualification in the sense of the reverse scan: nonempty after
stripping, brace-delimited, parsed by `loads`, and satisfying the stats
condition. -/
def qualifiesLine (loads : String → Option (List (String × Json)))
    (l : String) : Bool :=
  !l.trim.isEmpty && (l.trim.startsWith "\x7b" && l.trim.endsWith "\x7d")
    && (match loads l.trim with
        | none => false
        | some fields => statsCondition fields)

/-- The record a qualifying line produces (junk defaults on lines `loads`
rejects, which are never qualifying). -/
def recordOfLine (loads : String → Option (List (String × Json)))
    (l : String) : UsageRecord :=
  match loads l.trim with
  | none => usageRecordOf []
  | some fields => usageRecordOf fields

/-- Outcome of one health-probe request (`client.post` in
`check_single_key`, main.py lines 606-648): an HTTP status or a transport
exception. -/
inductive ProbeOutcome where
  | status (code : Nat)
  | exn (msg : String)
deriving DecidableEq, Repr

/-- The health-worker penalty test (main.py line 595):
`i in key_penalty_box and key_penalty_box[i] > now`. -/
def healthIsPenalized (box : List (Int × Int)) (i now : Int) : Bool :=
  match dget box i with
  | none => false
  | some e => decide (e > now)

/-- Penalty-state transition of `check_single_key` inside
`perform_keys_health_check` (main.py lines 594-648): a penalized key is
skipped unless `force_all`; a 200 probe deletes all three penalty entries;
a 429 probe advances the 429 ladder; any other status or a transport
exception leaves the state unchanged. -/
def check_single_key (s : DState) (i now : Int) (force_all : Bool)
    (probe : ProbeOutcome) : DState :=
  if healthIsPenalized s.box i now && !force_all then s
  else
    match probe with
    | .exn _ => s
    | .status code =>
      if code = 200 then ⟨ddel s.box i, ddel s.levels429 i, ddel s.levels50x i⟩
      else if code = 429 then
        { s with
          levels429 := dset s.levels429 i
            (min ((dget s.levels429 i).getD (-1) + 1)
              ((BACKOFF_STAGES.length : Int) - 1)),
          box := dset s.box i (now + BACKOFF_STAGES.getD
            (min ((dget s.levels429 i).getD (-1) + 1)
              ((BACKOFF_STAGES.length : Int) - 1)).toNat 0) }
      else s

/-- Python list indexing `l[i]` including negative-index semantics:
`l[i]` is `l[len(l)+i]` for `-len(l) <= i < 0`, and an `IndexError`
(modelled as `none`) outside the valid range. -/
def pyListGet {α : Type} (l : List α) (i : Int) : Option α :=
  if 0 ≤ i then
    if i < (l.length : Int) then l.get? i.toNat else none
  else
    if 0 ≤ (l.length : Int) + i then l.get? ((l.length : Int) + i).toNat
    else none

/-- Reply of `reset_key_penalty` (main.py lines 485-548): the resulting
penalty state, the HTTP status of the reply (404 for an out-of-range index,
500 for an uncaught `IndexError` on the list access, 200 otherwise), and the
credential that was probed. -/
structure ResetReply where
  state : DState
  httpStatus : Nat
  probedKey : Option String
deriving DecidableEq, Repr

/-- Embedding of `reset_key_penalty` (main.py lines 485-548): reject only
`key_index >= len(OLLAMA_API_KEYS)` with 404; delete the three penalty
entries under the raw `key_index`; read the credential with Python list
indexing; on a 429 probe re-enter level 0 of the 429 ladder under the raw
`key_index`; all other probe outcomes leave the cleared state. -/
def reset_key_penalty (keys : List String) (s : DState) (key_index now : Int)
    (probe : ProbeOutcome) : ResetReply :=
  if (keys.length : Int) ≤ key_index then ⟨s, 404, none⟩
  else
    let s1 : DState := ⟨ddel s.box key_index, ddel s.levels429 key_index,
      ddel s.levels50x key_index⟩
    match pyListGet keys key_index with
    | none => ⟨s1, 500, none⟩
    | some key =>
      match probe with
      | .exn _ => ⟨s1, 200, some key⟩
      | .status code =>
        if code = 429 then
          ⟨{ s1 with
              box := dset s1.box key_index (now + BACKOFF_STAGES.getD 0 0),
              levels429 := dset s1.levels429 key_index 0 },
            200, some key⟩
        else ⟨s1, 200, some key⟩

/-- Reply of `penalize_key_manually` (main.py lines 551-582). -/
structure PenalizeReply where
  state : DState
  httpStatus : Nat
  expires_in : Option Int
deriving DecidableEq, Repr

/-- Embedding of `penalize_key_manually` (main.py lines 551-582): reject only
`key_index >= len(OLLAMA_API_KEYS)` with 404; keep the current 429 level
(default 0) and set the penalty expiry under the raw `key_index`. -/
def penalize_key_manually (keys : List String) (s : DState)
    (key_index now : Int) : PenalizeReply :=
  if (keys.length : Int) ≤ key_index then ⟨s, 404, none⟩
  else
    let current_level := (dget s.levels429 key_index).getD 0
    let expires_in := BACKOFF_STAGES.getD current_level.toNat 0
    ⟨{ s with levels429 := dset s.levels429 key_index current_level,
              box := dset s.box key_index (now + expires_in) },
      200, some expires_in⟩

/-- A sequence of consecutive 429 events on key `i` with the given upstream
hints, applied through the 429 penalty block of the dispatcher. -/
def iterate429 (i now : Int) : List (Option Int) → DState → DState
  | [], s => s
  | h :: rest, s => iterate429 i now rest (penalize429 s i now h).1

theorem dget_dset_self (d : List (Int × Int)) (i v : Int) :
    dget (dset d i v) i = some v := by
  simp [dset, dget]

theorem dget_filter_ne (d : List (Int × Int)) (i : Int) :
    dget (d.filter (fun p => p.1 ≠ i)) i = none := by
  induction d with
  | nil => rfl
  | cons hd tl ih =>
    obtain ⟨k, v⟩ := hd
    rw [List.filter_cons]
    by_cases h : k = i
    · rw [if_neg (by simp [h])]
      exact ih
    · rw [if_pos (by simp [h])]
      show (if k = i then some v else dget _ i) = none
      rw [if_neg h]
      exact ih

theorem dget_filter_other (d : List (Int × Int)) (i j : Int) (h : j ≠ i) :
    dget (d.filter (fun p => p.1 ≠ i)) j = dget d j := by
  induction d with
  | nil => rfl
  | cons hd tl ih =>
    obtain ⟨k, v⟩ := hd
    rw [List.filter_cons]
    by_cases hk : k = i
    · rw [if_neg (by simp [hk])]
      rw [ih]
      show dget tl j = if k = j then some v else dget tl j
      rw [if_neg (by rw [hk]; exact fun e => h e.symm)]
    · rw [if_pos (by simp [hk])]
      show (if k = j then some v else _) = (if k = j then some v else _)
      by_cases hj : k = j
      · rw [if_pos hj, if_pos hj]
      · rw [if_neg hj, if_neg hj, ih]

theorem dget_dset_other (d : List (Int × Int)) (i j v : Int) (h : j ≠ i) :
    dget (dset d i v) j = dget d j := by
  show (if i = j then some v else _) = dget d j
  rw [if_neg h.symm]
  exact dget_filter_other d i j h

theorem dget_ddel_self (d : List (Int × Int)) (i : Int) :
    dget (ddel d i) i = none := dget_filter_ne d i

theorem dget_ddel_other (d : List (Int × Int)) (i j : Int) (h : j ≠ i) :
    dget (ddel d i) j = dget d j := dget_filter_other d i j h

theorem argminBy_mem (f : Int → Int) (l : List Int) (m : Int)
    (h : argminBy f l = some m) : m ∈ l := by
  cases l with
  | nil => simp [argminBy] at h
  | cons x xs =>
    simp only [argminBy, Option.some.injEq] at h
    subst h
    induction xs generalizing x with
    | nil => simp
    | cons y ys ih =>
      simp only [List.foldl_cons]
      by_cases hc : f y < f x
      · rw [if_pos hc]
        exact List.mem_cons_of_mem _ (ih y)
      · rw [if_neg hc]
        rcases List.mem_cons.mp (ih x) with h' | h'
        · rw [h']; exact List.mem_cons_self _ _
        · exact List.mem_cons_of_mem _ (List.mem_cons_of_mem _ h')

theorem mem_of_head? {α : Type} {l : List α} {a : α} (h : l.head? = some a) :
    a ∈ l := by
  cases l with
  | nil => cases h
  | cons x xs =>
    simp only [List.head?_cons, Option.some.injEq] at h
    rw [← h]
    exact List.mem_cons_self _ _

theorem head?_isSome_of_not_isEmpty {α : Type} {l : List α}
    (h : ¬ l.isEmpty = true) : l.head?.isSome = true := by
  cases l with
  | nil => exact absurd rfl h
  | cons x xs => rfl

theorem argminBy_isSome_of_not_isEmpty (f : Int → Int) {l : List Int}
    (h : ¬ l.isEmpty = true) : (argminBy f l).isSome = true := by
  cases l with
  | nil => exact absurd rfl h
  | cons x xs => rfl

theorem get_best_key_index_mem_available (n : Nat) (box : List (Int × Int))
    (now : Int) (usage : Int → Int) (dbOk : Bool) (exclude : List Int) (i : Int)
    (hne : ¬ (availableIndices n box now exclude).isEmpty = true)
    (h : get_best_key_index n box now usage dbOk exclude = some i) :
    i ∈ availableIndices n box now exclude := by
  unfold get_best_key_index at h
  rw [if_neg hne] at h
  by_cases h1 : (availableIndices n box now exclude).length = 1
  · rw [if_pos h1] at h
    exact mem_of_head? h
  · rw [if_neg h1] at h
    cases dbOk with
    | true =>
      rw [if_pos rfl] at h
      exact argminBy_mem _ _ _ h
    | false =>
      rw [if_neg (by simp)] at h
      exact mem_of_head? h

theorem get_best_key_index_mem_remaining (n : Nat) (box : List (Int × Int))
    (now : Int) (usage : Int → Int) (dbOk : Bool) (exclude : List Int) (i : Int)
    (he : (availableIndices n box now exclude).isEmpty = true)
    (h : get_best_key_index n box now usage dbOk exclude = some i) :
    i ∈ remainingNonExcluded n exclude := by
  unfold get_best_key_index at h
  rw [if_pos he] at h
  by_cases hr : (remainingNonExcluded n exclude).isEmpty = true
  · rw [if_pos hr] at h
    cases h
  · rw [if_neg hr] at h
    by_cases hp : (penalizedNonExcluded n box exclude).isEmpty = true
    · rw [if_pos hp] at h
      exact mem_of_head? h
    · rw [if_neg hp] at h
      have hm := argminBy_mem _ _ _ h
      unfold penalizedNonExcluded at hm
      exact List.mem_of_mem_filter hm

theorem get_best_key_index_isSome (n : Nat) (box : List (Int × Int))
    (now : Int) (usage : Int → Int) (dbOk : Bool) (exclude : List Int)
    (hr : ¬ (remainingNonExcluded n exclude).isEmpty = true) :
    (get_best_key_index n box now usage dbOk exclude).isSome = true := by
  unfold get_best_key_index
  by_cases he : (availableIndices n box now exclude).isEmpty = true
  · rw [if_pos he, if_neg hr]
    by_cases hp : (penalizedNonExcluded n box exclude).isEmpty = true
    · rw [if_pos hp]
      exact head?_isSome_of_not_isEmpty hr
    · rw [if_neg hp]
      exact argminBy_isSome_of_not_isEmpty _ hp
  · rw [if_neg he]
    by_cases h1 : (availableIndices n box now exclude).length = 1
    · rw [if_pos h1]
      exact head?_isSome_of_not_isEmpty he
    · rw [if_neg h1]
      cases dbOk with
      | true =>
        rw [if_pos rfl]
        exact argminBy_isSome_of_not_isEmpty _ he
      | false =>
        rw [if_neg (by simp)]
        exact head?_isSome_of_not_isEmpty he

/-- C4: for every exclude set and penalty-box state, `get_best_key_index`
never returns an index in the exclude set, never returns a penalized key when
at least one non-penalized non-excluded key exists, and returns `None` only
when every index of the pool is excluded. -/
theorem selector_exclusion_and_penalty_invariant (n : Nat)
    (box : List (Int × Int)) (now : Int) (usage : Int → Int) (dbOk : Bool)
    (exclude : List Int) :
    (∀ i, get_best_key_index n box now usage dbOk exclude = some i →
        exclude.contains i = false
        ∧ ((∃ j, j ∈ (List.range n).map Int.ofNat
              ∧ availableKey box now j = true ∧ exclude.contains j = false)
            → availableKey box now i = true))
    ∧ (get_best_key_index n box now usage dbOk exclude = none →
        ∀ j, j ∈ (List.range n).map Int.ofNat → exclude.contains j = true) := by
  constructor
  · intro i hi
    by_cases he : (availableIndices n box now exclude).isEmpty = true
    · have hm := get_best_key_index_mem_remaining n box now usage dbOk exclude i he hi
      unfold remainingNonExcluded at hm
      rw [List.mem_filter] at hm
      refine ⟨by simpa using hm.2, ?_⟩
      rintro ⟨j, hj, hav, hxc⟩
      exfalso
      have hja : j ∈ availableIndices n box now exclude := by
        unfold availableIndices
        rw [List.mem_filter]
        refine ⟨hj, ?_⟩
        show (availableKey box now j && !(exclude.contains j)) = true
        rw [hav, hxc]
        rfl
      rw [List.isEmpty_iff] at he
      rw [he] at hja
      cases hja
    · have hm := get_best_key_index_mem_available n box now usage dbOk exclude i he hi
      unfold availableIndices at hm
      rw [List.mem_filter] at hm
      have h2 := hm.2
      simp only [Bool.and_eq_true, Bool.not_eq_true'] at h2
      exact ⟨h2.2, fun _ => h2.1⟩
  · intro hn j hj
    by_contra hc
    have hcf : exclude.contains j = false := by
      cases hcc : exclude.contains j with
      | false => rfl
      | true => exact absurd hcc hc
    have hjr : j ∈ remainingNonExcluded n exclude := by
      unfold remainingNonExcluded
      rw [List.mem_filter]
      refine ⟨hj, ?_⟩
      show (!(exclude.contains j)) = true
      rw [hcf]
      rfl
    have hrne : ¬ (remainingNonExcluded n exclude).isEmpty = true := by
      intro he
      rw [List.isEmpty_iff] at he
      rw [he] at hjr
      cases hjr
    have hs := get_best_key_index_isSome n box now usage dbOk exclude hrne
    rw [hn] at hs
    cases hs

/-- Witness for C4 at a concrete state: two keys, key 0 penalized until 100,
now 5, nothing excluded; the selector returns key 1, which is neither
excluded nor penalized. -/
theorem selector_exclusion_and_penalty_invariant_witness :
    List.contains ([] : List Int) 1 = false
    ∧ availableKey [((0 : Int), (100 : Int))] 5 1 = true := by
  have h := selector_exclusion_and_penalty_invariant 2 [((0 : Int), (100 : Int))]
    5 (fun _ => 0) true []
  have h1 := h.1 1 (by decide)
  exact ⟨h1.1, h1.2 ⟨1, by decide, by decide, by decide⟩⟩

theorem get_best_key_index_mem_range (n : Nat) (box : List (Int × Int))
    (now : Int) (usage : Int → Int) (dbOk : Bool) (exclude : List Int) (i : Int)
    (h : get_best_key_index n box now usage dbOk exclude = some i) :
    i ∈ (List.range n).map Int.ofNat := by
  by_cases he : (availableIndices n box now exclude).isEmpty = true
  · have hm := get_best_key_index_mem_remaining n box now usage dbOk exclude i he h
    unfold remainingNonExcluded at hm
    exact List.mem_of_mem_filter hm
  · have hm := get_best_key_index_mem_available n box now usage dbOk exclude i he h
    unfold availableIndices at hm
    exact List.mem_of_mem_filter hm

theorem headD_mem_of_not_isEmpty {α : Type} {l : List α} (d : α)
    (h : ¬ l.isEmpty = true) : l.headD d ∈ l := by
  cases l with
  | nil => exact absurd rfl h
  | cons x xs => exact List.mem_cons_self _ _

theorem chooseKey_not_attempted (n : Nat) (s : DState) (now : Int)
    (usage : Int → Int) (dbOk : Bool) (attempted : List Int)
    (hne : ¬ (attemptPool n attempted).isEmpty = true) :
    chooseKey n s now usage dbOk attempted ∉ attempted
    ∧ chooseKey n s now usage dbOk attempted ∈ (List.range n).map Int.ofNat := by
  have hpool : ∀ x ∈ attemptPool n attempted,
      x ∉ attempted ∧ x ∈ (List.range n).map Int.ofNat := by
    intro x hx
    unfold attemptPool at hx
    rw [List.mem_filter] at hx
    refine ⟨?_, hx.1⟩
    intro hmem
    have := hx.2
    rw [Bool.not_eq_true', ← Bool.not_eq_true] at this
    exact this (List.elem_iff.mpr hmem)
  unfold chooseKey
  cases hg : get_best_key_index n s.box now usage dbOk attempted with
  | none =>
    simp only [chooseKeyFrom]
    have := hpool _ (headD_mem_of_not_isEmpty 0 hne)
    exact ⟨this.1, this.2⟩
  | some i =>
    simp only [chooseKeyFrom]
    by_cases hc : attempted.contains i = true
    · rw [if_pos hc]
      have := hpool _ (headD_mem_of_not_isEmpty 0 hne)
      exact ⟨this.1, this.2⟩
    · rw [if_neg hc]
      refine ⟨fun hmem => hc (List.elem_iff.mpr hmem), ?_⟩
      exact get_best_key_index_mem_range n s.box now usage dbOk attempted i hg

/-- Trace invariant of the retry loop: starting from a duplicate-free
attempted set drawn from the key range, the returned trace is duplicate-free,
grows by at most `fuel` entries, and stays inside the key range. -/
theorem dispatchGo_trace_invariant (n : Nat) (oracle : Int → Outcome)
    (now : Int) (usage : Int → Int) (dbOk : Bool) :
    ∀ (fuel attempt : Nat) (s : DState) (attempted : List Int)
      (lastExn : Option String),
    attempted.Nodup →
    (∀ x ∈ attempted, x ∈ (List.range n).map Int.ofNat) →
    (dispatchGo n oracle now usage dbOk fuel attempt s attempted lastExn).2.1.Nodup
    ∧ (dispatchGo n oracle now usage dbOk fuel attempt s attempted
        lastExn).2.1.length ≤ attempted.length + fuel
    ∧ (∀ x ∈ (dispatchGo n oracle now usage dbOk fuel attempt s attempted
        lastExn).2.1, x ∈ (List.range n).map Int.ofNat) := by
  intro fuel
  induction fuel with
  | zero =>
    intro attempt s attempted lastExn h1 h2
    exact ⟨h1, by simp [dispatchGo], h2⟩
  | succ fuel ih =>
    intro attempt s attempted lastExn h1 h2
    by_cases hav : (attemptPool n attempted).isEmpty = true
    · simp only [dispatchGo, if_pos hav]
      exact ⟨h1, by omega, h2⟩
    · have hck := chooseKey_not_attempted n s now usage dbOk attempted hav
      have h1' : (chooseKey n s now usage dbOk attempted :: attempted).Nodup :=
        List.nodup_cons.mpr ⟨hck.1, h1⟩
      have h2' : ∀ x ∈ chooseKey n s now usage dbOk attempted :: attempted,
          x ∈ (List.range n).map Int.ofNat := by
        intro x hx
        rcases List.mem_cons.mp hx with h | h
        · rw [h]; exact hck.2
        · exact h2 x h
      rcases hc : classify s (chooseKey n s now usage dbOk attempted) now
          (oracle (chooseKey n s now usage dbOk attempted)) with ⟨s', sc⟩
      cases sc with
      | retryable status headers body =>
        by_cases hlt : attempt < n - 1
        · simp only [dispatchGo, if_neg hav, hc, if_pos hlt]
          have := ih (attempt + 1) s' (chooseKey n s now usage dbOk attempted
            :: attempted) lastExn h1' h2'
          refine ⟨this.1, ?_, this.2.2⟩
          have := this.2.1
          simp only [List.length_cons] at this
          omega
        · simp only [dispatchGo, if_neg hav, hc, if_neg hlt]
          exact ⟨h1', by simp, h2'⟩
      | passThrough status headers body =>
        simp only [dispatchGo, if_neg hav, hc]
        exact ⟨h1', by simp, h2'⟩
      | failed msg =>
        by_cases hlt : attempt < n - 1
        · simp only [dispatchGo, if_neg hav, hc, if_pos hlt]
          have := ih (attempt + 1) s' (chooseKey n s now usage dbOk attempted
            :: attempted) (some msg) h1' h2'
          refine ⟨this.1, ?_, this.2.2⟩
          have := this.2.1
          simp only [List.length_cons] at this
          omega
        · simp only [dispatchGo, if_neg hav, hc, if_neg hlt]
          exact ⟨h1', by simp, h2'⟩

/-- C5: for every inbound request the attempt loop issues at most
`len(OLLAMA_API_KEYS)` upstream attempts and never attempts the same key
index twice: the attempt trace is duplicate-free and bounded by `n`. -/
theorem dispatcher_attempts_bounded_and_distinct (n : Nat)
    (oracle : Int → Outcome) (now : Int) (usage : Int → Int) (dbOk : Bool)
    (s : DState) :
    (handle_proxy n oracle now usage dbOk s).2.1.Nodup
    ∧ (handle_proxy n oracle now usage dbOk s).2.1.length ≤ n := by
  have := dispatchGo_trace_invariant n oracle now usage dbOk n 0 s [] none
    List.nodup_nil (by intro x hx; cases hx)
  exact ⟨this.1, by have := this.2.1; simpa using this⟩

theorem classify_exn (s : DState) (i now : Int) (msg : String) :
    classify s i now (.exn msg) = (s, .failed msg) := rfl

theorem classify_not_retryable (s : DState) (i now : Int) (st : Nat)
    (hint : Option Int) (hd : List (String × String)) (b : List (List Nat))
    (hst : ¬ retryableStatus st) :
    classify s i now (.resp st hint hd b) = (s, .passThrough st hd b) := by
  unfold retryableStatus at hst
  simp only [classify]
  rw [if_neg (fun h => hst (Or.inl h)), if_neg (fun h => hst (Or.inr h))]

theorem classify_of_retryable (s : DState) (i now : Int) (st : Nat)
    (hint : Option Int) (hd : List (String × String)) (b : List (List Nat))
    (hst : retryableStatus st) :
    ∃ s', classify s i now (.resp st hint hd b) = (s', .retryable st hd b) := by
  simp only [classify]
  by_cases h429 : st = 429
  · exact ⟨_, by rw [if_pos h429]⟩
  · have h5 : st = 500 ∨ st = 502 ∨ st = 503 ∨ st = 504 := by
      rcases hst with h | h
      · exact absurd h h429
      · exact h
    exact ⟨_, by rw [if_neg h429, if_pos h5]⟩

theorem classify_retryable_inv (s : DState) (i now : Int) (o : Outcome)
    (s' : DState) (st : Nat) (hd : List (String × String)) (b : List (List Nat))
    (h : classify s i now o = (s', .retryable st hd b)) :
    (∃ hint, o = .resp st hint hd b) ∧ retryableStatus st := by
  cases o with
  | exn msg => simp [classify] at h
  | resp status hint headers body =>
    simp only [classify] at h
    by_cases h429 : status = 429
    · rw [if_pos h429] at h
      simp only [Prod.mk.injEq, StepClass.retryable.injEq] at h
      obtain ⟨-, h2, h3, h4⟩ := h
      subst h2; subst h3; subst h4
      exact ⟨⟨hint, rfl⟩, Or.inl h429⟩
    · rw [if_neg h429] at h
      by_cases h5 : status = 500 ∨ status = 502 ∨ status = 503 ∨ status = 504
      · rw [if_pos h5] at h
        simp only [Prod.mk.injEq, StepClass.retryable.injEq] at h
        obtain ⟨-, h2, h3, h4⟩ := h
        subst h2; subst h3; subst h4
        exact ⟨⟨hint, rfl⟩, Or.inr h5⟩
      · rw [if_neg h5] at h
        simp at h

theorem classify_passThrough_inv (s : DState) (i now : Int) (o : Outcome)
    (s' : DState) (st : Nat) (hd : List (String × String)) (b : List (List Nat))
    (h : classify s i now o = (s', .passThrough st hd b)) :
    (∃ hint, o = .resp st hint hd b) ∧ s' = s := by
  cases o with
  | exn msg => simp [classify] at h
  | resp status hint headers body =>
    simp only [classify] at h
    by_cases h429 : status = 429
    · rw [if_pos h429] at h
      simp at h
    · rw [if_neg h429] at h
      by_cases h5 : status = 500 ∨ status = 502 ∨ status = 503 ∨ status = 504
      · rw [if_pos h5] at h
        simp at h
      · rw [if_neg h5] at h
        simp only [Prod.mk.injEq, StepClass.passThrough.injEq] at h
        obtain ⟨h1, h2, h3, h4⟩ := h
        subst h2; subst h3; subst h4
        exact ⟨⟨hint, rfl⟩, h1.symm⟩

theorem keyRange_nodup (n : Nat) : ((List.range n).map Int.ofNat).Nodup := by
  refine List.Nodup.map ?_ (List.nodup_range n)
  intro a b hab
  exact Int.ofNat.inj hab

theorem attemptPool_ne_empty (n : Nat) (attempted : List Int)
    (hsub : ∀ x ∈ attempted, x ∈ (List.range n).map Int.ofNat)
    (hnd : attempted.Nodup) (hlt : attempted.length < n) :
    ¬ (attemptPool n attempted).isEmpty = true := by
  intro he
  rw [List.isEmpty_iff] at he
  unfold attemptPool at he
  rw [List.filter_eq_nil] at he
  have hsub2 : ((List.range n).map Int.ofNat) ⊆ attempted := by
    intro x hx
    have hx2 := he x hx
    have hc : attempted.contains x = true := by
      revert hx2
      cases attempted.contains x <;> simp
    exact List.elem_iff.mp hc
  have hle := List.Subperm.length_le
    (List.subperm_of_subset (keyRange_nodup n) hsub2)
  rw [List.length_map, List.length_range] at hle
  omega

theorem dispatchGo_all_retryable (n : Nat) (oracle : Int → Outcome) (now : Int)
    (usage : Int → Int) (dbOk : Bool)
    (hall : ∀ i ∈ (List.range n).map Int.ofNat, ∃ st hint hd b,
        oracle i = Outcome.resp st hint hd b ∧ retryableStatus st) :
    ∀ (fuel attempt : Nat) (s : DState) (attempted : List Int)
      (lastExn : Option String),
    fuel + attempt = n → 1 ≤ fuel → attempted.length = attempt →
    attempted.Nodup →
    (∀ x ∈ attempted, x ∈ (List.range n).map Int.ofNat) →
    ∃ k st hd b, (∃ hint, oracle k = Outcome.resp st hint hd b)
      ∧ retryableStatus st
      ∧ (dispatchGo n oracle now usage dbOk fuel attempt s attempted
          lastExn).2.1.head? = some k
      ∧ (dispatchGo n oracle now usage dbOk fuel attempt s attempted
          lastExn).2.2 = ProxyResult.stream st hd b k := by
  intro fuel
  induction fuel with
  | zero =>
    intro attempt s attempted lastExn h1 h2
    omega
  | succ fuel ih =>
    intro attempt s attempted lastExn hfn hf1 hlen hnd hsub
    have hlt : attempted.length < n := by omega
    have hav := attemptPool_ne_empty n attempted hsub hnd hlt
    have hck := chooseKey_not_attempted n s now usage dbOk attempted hav
    obtain ⟨st, hint, hd, b, horacle, hretry⟩ := hall _ hck.2
    obtain ⟨s', hcl⟩ : ∃ s',
        classify s (chooseKey n s now usage dbOk attempted) now
          (oracle (chooseKey n s now usage dbOk attempted))
          = (s', .retryable st hd b) := by
      rw [horacle]
      exact classify_of_retryable s _ now st hint hd b hretry
    by_cases hltn : attempt < n - 1
    · have hrec := ih (attempt + 1) s'
        (chooseKey n s now usage dbOk attempted :: attempted) lastExn
        (by omega) (by omega) (by simp [hlen])
        (List.nodup_cons.mpr ⟨hck.1, hnd⟩)
        (by
          intro x hx
          rcases List.mem_cons.mp hx with h | h
          · rw [h]; exact hck.2
          · exact hsub x h)
      simp only [dispatchGo, if_neg hav, hcl, if_pos hltn]
      exact hrec
    · simp only [dispatchGo, if_neg hav, hcl, if_neg hltn]
      exact ⟨chooseKey n s now usage dbOk attempted, st, hd, b,
        ⟨hint, horacle⟩, hretry, rfl, rfl⟩

/-- C1 (counterexample): with a single key whose attempt observes a
retryable 429 and no transport exception, every key is attempted and every
attempt fails retryably, yet the dispatcher returns the upstream 429
response itself (status 429 passed through), not a 503 with the exhaustion
detail. -/
theorem exhausted_keys_not_503_counterexample :
    (handle_proxy 1 (fun _ => Outcome.resp 429 none [] []) 0 (fun _ => 0) true
        ⟨[], [], []⟩).2.2 = ProxyResult.stream 429 [] [] 0
    ∧ (handle_proxy 1 (fun _ => Outcome.resp 429 none [] []) 0 (fun _ => 0)
        true ⟨[], [], []⟩).2.2
      ≠ ProxyResult.httpError 503
          "All API keys exhausted, rate-limited, or returned errors" := by
  refine ⟨rfl, ?_⟩
  intro h
  rw [show (handle_proxy 1 (fun _ => Outcome.resp 429 none [] []) 0
      (fun _ => 0) true ⟨[], [], []⟩).2.2 = ProxyResult.stream 429 [] [] 0
    from rfl] at h
  cases h

/-- C1 (amended): when the attempt of every key observes a retryable upstream
failure (429 or 500/502/503/504) with no transport exception, the dispatcher
does not respond 503; on the last iteration the retryable-status branch does
not `continue`, so the upstream response of the last attempted key — status,
headers and body — is passed through to the client as the response. -/
theorem all_retryable_passes_through_last_response (n : Nat)
    (oracle : Int → Outcome) (now : Int) (usage : Int → Int) (dbOk : Bool)
    (s : DState) (hn : 1 ≤ n)
    (hall : ∀ i ∈ (List.range n).map Int.ofNat, ∃ st hint hd b,
        oracle i = Outcome.resp st hint hd b ∧ retryableStatus st) :
    ∃ k st hd b, (∃ hint, oracle k = Outcome.resp st hint hd b)
      ∧ retryableStatus st
      ∧ (handle_proxy n oracle now usage dbOk s).2.1.head? = some k
      ∧ (handle_proxy n oracle now usage dbOk s).2.2
          = ProxyResult.stream st hd b k :=
  dispatchGo_all_retryable n oracle now usage dbOk hall n 0 s [] none
    (by omega) hn rfl List.nodup_nil (by intro x hx; cases hx)

/-- Witness for the amended C1: one key, upstream always 429. -/
theorem all_retryable_passes_through_last_response_witness :
    ∃ k st hd b,
      (∃ hint, (fun _ : Int => Outcome.resp 429 none [] []) k
        = Outcome.resp st hint hd b)
      ∧ retryableStatus st
      ∧ (handle_proxy 1 (fun _ => Outcome.resp 429 none [] []) 0 (fun _ => 0)
          true ⟨[], [], []⟩).2.1.head? = some k
      ∧ (handle_proxy 1 (fun _ => Outcome.resp 429 none [] []) 0 (fun _ => 0)
          true ⟨[], [], []⟩).2.2 = ProxyResult.stream st hd b k :=
  all_retryable_passes_through_last_response 1
    (fun _ => Outcome.resp 429 none [] []) 0 (fun _ => 0) true ⟨[], [], []⟩
    (by omega)
    (by intro i hi; exact ⟨429, none, [], [], rfl, Or.inl rfl⟩)

theorem dispatchGo_all_exn (n : Nat) (oracle : Int → Outcome) (now : Int)
    (usage : Int → Int) (dbOk : Bool)
    (hall : ∀ i ∈ (List.range n).map Int.ofNat, ∃ msg,
        oracle i = Outcome.exn msg) :
    ∀ (fuel attempt : Nat) (s : DState) (attempted : List Int)
      (lastExn : Option String),
    fuel + attempt = n → 1 ≤ fuel → attempted.length = attempt →
    attempted.Nodup →
    (∀ x ∈ attempted, x ∈ (List.range n).map Int.ofNat) →
    (dispatchGo n oracle now usage dbOk fuel attempt s attempted lastExn).1 = s
    ∧ (dispatchGo n oracle now usage dbOk fuel attempt s attempted
        lastExn).2.1.length = n
    ∧ ∃ k msg, oracle k = Outcome.exn msg
        ∧ (dispatchGo n oracle now usage dbOk fuel attempt s attempted
            lastExn).2.1.head? = some k
        ∧ (dispatchGo n oracle now usage dbOk fuel attempt s attempted
            lastExn).2.2 = ProxyResult.httpError 500 msg := by
  intro fuel
  induction fuel with
  | zero =>
    intro attempt s attempted lastExn h1 h2
    omega
  | succ fuel ih =>
    intro attempt s attempted lastExn hfn hf1 hlen hnd hsub
    have hlt : attempted.length < n := by omega
    have hav := attemptPool_ne_empty n attempted hsub hnd hlt
    have hck := chooseKey_not_attempted n s now usage dbOk attempted hav
    obtain ⟨msg, horacle⟩ := hall _ hck.2
    have hcl : classify s (chooseKey n s now usage dbOk attempted) now
        (oracle (chooseKey n s now usage dbOk attempted))
        = (s, .failed msg) := by
      rw [horacle]
      exact classify_exn s _ now msg
    by_cases hltn : attempt < n - 1
    · have hrec := ih (attempt + 1) s
        (chooseKey n s now usage dbOk attempted :: attempted) (some msg)
        (by omega) (by omega) (by simp [hlen])
        (List.nodup_cons.mpr ⟨hck.1, hnd⟩)
        (by
          intro x hx
          rcases List.mem_cons.mp hx with h | h
          · rw [h]; exact hck.2
          · exact hsub x h)
      simp only [dispatchGo, if_neg hav, hcl, if_pos hltn]
      exact hrec
    · simp only [dispatchGo, if_neg hav, hcl, if_neg hltn]
      refine ⟨by trivial, ?_, chooseKey n s now usage dbOk attempted, msg,
        horacle, by trivial, by trivial⟩
      simp only [List.length_cons, hlen]
      omega

/-- C6: a transport exception performs no penalty mutation (the classify
step leaves the state untouched and only records the message), and when
every attempt raises a transport exception all `n` keys are attempted, the
final penalty state equals the initial one, and the client receives 500
whose detail is the message of the exception of the last (most recent) attempt. -/
theorem transport_exception_preserves_state_and_returns_500 (n : Nat)
    (oracle : Int → Outcome) (now : Int) (usage : Int → Int) (dbOk : Bool)
    (s : DState) (hn : 1 ≤ n)
    (hall : ∀ i ∈ (List.range n).map Int.ofNat, ∃ msg,
        oracle i = Outcome.exn msg) :
    (∀ (s0 : DState) (i now0 : Int) (msg : String),
        classify s0 i now0 (Outcome.exn msg) = (s0, StepClass.failed msg))
    ∧ (handle_proxy n oracle now usage dbOk s).1 = s
    ∧ (handle_proxy n oracle now usage dbOk s).2.1.length = n
    ∧ ∃ k msg, oracle k = Outcome.exn msg
        ∧ (handle_proxy n oracle now usage dbOk s).2.1.head? = some k
        ∧ (handle_proxy n oracle now usage dbOk s).2.2
            = ProxyResult.httpError 500 msg := by
  refine ⟨fun s0 i now0 msg => classify_exn s0 i now0 msg, ?_⟩
  exact dispatchGo_all_exn n oracle now usage dbOk hall n 0 s [] none
    (by omega) hn rfl List.nodup_nil (by intro x hx; cases hx)

/-- Witness for C6: one key whose attempt raises an exception with message
"connection reset". -/
theorem transport_exception_preserves_state_and_returns_500_witness :
    (∀ (s0 : DState) (i now0 : Int) (msg : String),
        classify s0 i now0 (Outcome.exn msg) = (s0, StepClass.failed msg))
    ∧ (handle_proxy 1 (fun _ => Outcome.exn "connection reset") 0 (fun _ => 0)
        true ⟨[(0, 7)], [], []⟩).1 = ⟨[(0, 7)], [], []⟩
    ∧ (handle_proxy 1 (fun _ => Outcome.exn "connection reset") 0 (fun _ => 0)
        true ⟨[(0, 7)], [], []⟩).2.1.length = 1
    ∧ ∃ k msg, (fun _ : Int => Outcome.exn "connection reset") k
          = Outcome.exn msg
        ∧ (handle_proxy 1 (fun _ => Outcome.exn "connection reset") 0
            (fun _ => 0) true ⟨[(0, 7)], [], []⟩).2.1.head? = some k
        ∧ (handle_proxy 1 (fun _ => Outcome.exn "connection reset") 0
            (fun _ => 0) true ⟨[(0, 7)], [], []⟩).2.2
            = ProxyResult.httpError 500 msg :=
  transport_exception_preserves_state_and_returns_500 1
    (fun _ => Outcome.exn "connection reset") 0 (fun _ => 0) true
    ⟨[(0, 7)], [], []⟩ (by omega)
    (by intro i hi; exact ⟨"connection reset", rfl⟩)

theorem dispatchGo_stream_inv (n : Nat) (oracle : Int → Outcome) (now : Int)
    (usage : Int → Int) (dbOk : Bool) :
    ∀ (fuel attempt : Nat) (s : DState) (attempted : List Int)
      (lastExn : Option String) (st : Nat) (hd : List (String × String))
      (b : List (List Nat)) (k : Int),
    (dispatchGo n oracle now usage dbOk fuel attempt s attempted lastExn).2.2
      = ProxyResult.stream st hd b k →
    ∃ hint, oracle k = Outcome.resp st hint hd b := by
  intro fuel
  induction fuel with
  | zero =>
    intro attempt s attempted lastExn st hd b k h
    cases lastExn <;> simp [dispatchGo, finalFailure] at h
  | succ fuel ih =>
    intro attempt s attempted lastExn st hd b k h
    by_cases hav : (attemptPool n attempted).isEmpty = true
    · simp only [dispatchGo, if_pos hav] at h
      cases lastExn <;> simp [finalFailure] at h
    · rcases hcl : classify s (chooseKey n s now usage dbOk attempted) now
        (oracle (chooseKey n s now usage dbOk attempted)) with ⟨s', sc⟩
      cases sc with
      | retryable status headers body =>
        by_cases hltn : attempt < n - 1
        · simp only [dispatchGo, if_neg hav, hcl, if_pos hltn] at h
          exact ih _ _ _ _ _ _ _ _ h
        · simp only [dispatchGo, if_neg hav, hcl, if_neg hltn] at h
          simp only [ProxyResult.stream.injEq] at h
          obtain ⟨h1, h2, h3, h4⟩ := h
          subst h1; subst h2; subst h3; subst h4
          exact (classify_retryable_inv _ _ _ _ _ _ _ _ hcl).1
      | passThrough status headers body =>
        simp only [dispatchGo, if_neg hav, hcl] at h
        simp only [ProxyResult.stream.injEq] at h
        obtain ⟨h1, h2, h3, h4⟩ := h
        subst h1; subst h2; subst h3; subst h4
        exact (classify_passThrough_inv _ _ _ _ _ _ _ _ hcl).1
      | failed msg =>
        by_cases hltn : attempt < n - 1
        · simp only [dispatchGo, if_neg hav, hcl, if_pos hltn] at h
          exact ih _ _ _ _ _ _ _ _ h
        · simp only [dispatchGo, if_neg hav, hcl, if_neg hltn] at h
          simp [finalFailure] at h

theorem streamStep_fold_yields (chunks : List (List Nat)) :
    ∀ (ys : List (List Nat)) (t : List Nat),
    (chunks.foldl streamStep (ys, t)).1 = ys ++ chunks := by
  induction chunks with
  | nil =>
    intro ys t
    simp
  | cons c cs ih =>
    intro ys t
    simp only [List.foldl_cons, streamStep]
    rw [ih]
    simp

/-- C9: whatever streamed response the dispatcher hands to the client came
verbatim from the chosen upstream attempt — same status, same headers, same
body — and the tail parser yields exactly the upstream chunks to the client,
adding, dropping and altering nothing. -/
theorem proxy_round_trip (n : Nat) (oracle : Int → Outcome) (now : Int)
    (usage : Int → Int) (dbOk : Bool) (s : DState) :
    (∀ (st : Nat) (hd : List (String × String)) (b : List (List Nat))
       (k : Int),
      (handle_proxy n oracle now usage dbOk s).2.2
        = ProxyResult.stream st hd b k →
      ∃ hint, oracle k = Outcome.resp st hint hd b)
    ∧ (∀ loads decode chunks,
        (log_stream_usage loads decode chunks).1 = chunks) := by
  constructor
  · intro st hd b k h
    exact dispatchGo_stream_inv n oracle now usage dbOk n 0 s [] none
      st hd b k h
  · intro loads decode chunks
    unfold log_stream_usage
    rw [streamStep_fold_yields chunks [] []]
    simp

/-- Witness for C9: one key returning 200 with concrete headers and two
body chunks; the response handed back is the response of that attempt. -/
theorem proxy_round_trip_witness :
    ∃ hint, (fun _ : Int => Outcome.resp 200 none [("content-type", "json")]
        [[1], [2, 3]]) 0
      = Outcome.resp 200 hint [("content-type", "json")] [[1], [2, 3]] :=
  (proxy_round_trip 1
    (fun _ => Outcome.resp 200 none [("content-type", "json")] [[1], [2, 3]])
    0 (fun _ => 0) true ⟨[], [], []⟩).1 200 [("content-type", "json")]
    [[1], [2, 3]] 0 rfl

theorem penalize429_spec (s : DState) (i now : Int) (h : Option Int) :
    dget (penalize429 s i now h).1.levels429 i
      = some (min ((dget s.levels429 i).getD (-1) + 1) 5)
    ∧ (penalize429 s i now h).2
      = hintMax (BACKOFF_STAGES.getD
          (min ((dget s.levels429 i).getD (-1) + 1) 5).toNat 0) h :=
  ⟨dget_dset_self _ _ _, rfl⟩

theorem penalize429_box (s : DState) (i now : Int) (h : Option Int) :
    dget (penalize429 s i now h).1.box i = some (now + (penalize429 s i now h).2) :=
  dget_dset_self _ _ _

theorem iterate429_level (i now : Int) :
    ∀ (hs : List (Option Int)) (s : DState) (l : Int),
    dget s.levels429 i = some l → 0 ≤ l → l ≤ 5 →
    dget (iterate429 i now hs s).levels429 i
      = some (min (l + (hs.length : Int)) 5) := by
  intro hs
  induction hs with
  | nil =>
    intro s l hl h0 h5
    simp only [iterate429, List.length_nil]
    rw [hl]
    congr 1
    omega
  | cons h rest ih =>
    intro s l hl h0 h5
    simp only [iterate429]
    have hstep := (penalize429_spec s i now h).1
    rw [hl] at hstep
    have hrec := ih (penalize429 s i now h).1 (min (l + 1) 5) hstep
      (by omega) (by omega)
    rw [hrec]
    congr 1
    simp only [List.length_cons]
    push_cast
    omega

/-- C3: starting from a key with no recorded 429 level, after `N`
consecutive 429 events with no intervening success (`N = hints.length + 1`,
the last event carrying hint `h`), the 429 backoff level of the key equals
`min (N-1) 5` and the `N`-th penalty duration equals the schedule entry at
that level raised to the hint when one parsed — `max(schedule_429[min(N-1,
5)], hint)` — with the hint ignored when absent or unparseable. -/
theorem consecutive_429_level_and_duration (i now : Int)
    (hints : List (Option Int)) (h : Option Int) (s0 : DState)
    (hinit : dget s0.levels429 i = none) :
    dget (penalize429 (iterate429 i now hints s0) i now h).1.levels429 i
      = some (min (hints.length : Int) 5)
    ∧ (penalize429 (iterate429 i now hints s0) i now h).2
      = hintMax (BACKOFF_STAGES.getD (min (hints.length : Int) 5).toNat 0) h := by
  cases hints with
  | nil =>
    have hspec := penalize429_spec s0 i now h
    rw [hinit] at hspec
    simp only [iterate429, List.length_nil]
    exact ⟨by rw [hspec.1]; norm_num, by rw [hspec.2]; norm_num⟩
  | cons h0 rest =>
    have hfirst := (penalize429_spec s0 i now h0).1
    rw [hinit] at hfirst
    have hlevel := iterate429_level i now rest (penalize429 s0 i now h0).1
      (min ((-1 : Int) + 1) 5) hfirst (by omega) (by omega)
    have hspec := penalize429_spec (iterate429 i now rest
      (penalize429 s0 i now h0).1) i now h
    rw [hlevel] at hspec
    simp only [Option.getD_some] at hspec
    simp only [iterate429, List.length_cons]
    constructor
    · rw [hspec.1]
      congr 1
      push_cast
      omega
    · rw [hspec.2]
      congr 3
      push_cast
      omega

/-- Witness for C3: two consecutive 429 events (first hintless, second with
hint 50) on a fresh key 0 reach level `min 1 5 = 1`; the second duration is
`max(3600, 50)`. -/
theorem consecutive_429_level_and_duration_witness :
    dget (penalize429 (iterate429 0 0 [none] ⟨[], [], []⟩) 0 0
        (some 50)).1.levels429 0
      = some (min (([none] : List (Option Int)).length : Int) 5)
    ∧ (penalize429 (iterate429 0 0 [none] ⟨[], [], []⟩) 0 0 (some 50)).2
      = hintMax (BACKOFF_STAGES.getD
          (min (([none] : List (Option Int)).length : Int) 5).toNat 0)
          (some 50) :=
  consecutive_429_level_and_duration 0 0 [none] (some 50) ⟨[], [], []⟩ rfl

/-- C2 (counterexample): a dispatcher attempt for key 0 answers 200 while
key 0 holds a penalty entry and both backoff levels; the 200 response is
streamed to the client but none of the three penalty fields is cleared —
the dispatcher path performs no `clear`. -/
theorem success_clears_penalty_counterexample :
    (handle_proxy 1 (fun _ => Outcome.resp 200 none [] []) 5 (fun _ => 0) true
        ⟨[(0, 999)], [(0, 3)], [(0, 2)]⟩).2.2 = ProxyResult.stream 200 [] [] 0
    ∧ dget (handle_proxy 1 (fun _ => Outcome.resp 200 none [] []) 5
        (fun _ => 0) true ⟨[(0, 999)], [(0, 3)], [(0, 2)]⟩).1.box 0 = some 999
    ∧ dget (handle_proxy 1 (fun _ => Outcome.resp 200 none [] []) 5
        (fun _ => 0) true ⟨[(0, 999)], [(0, 3)], [(0, 2)]⟩).1.levels429 0
        = some 3
    ∧ dget (handle_proxy 1 (fun _ => Outcome.resp 200 none [] []) 5
        (fun _ => 0) true ⟨[(0, 999)], [(0, 3)], [(0, 2)]⟩).1.levels50x 0
        = some 2 :=
  ⟨rfl, rfl, rfl, rfl⟩

/-- C2 (amended): a 200 (or any other non-retryable status, other 4xx
included) clears the three penalty fields only in the health-probe path;
the classification step of the dispatcher of a non-retryable response leaves the
penalty state exactly as it was, and only a 200 probe of the health worker
deletes all three entries. -/
theorem success_clears_penalty_only_in_health_path :
    (∀ (s : DState) (i now : Int) (st : Nat) (hint : Option Int)
       (hd : List (String × String)) (b : List (List Nat)),
      ¬ retryableStatus st →
      classify s i now (.resp st hint hd b) = (s, .passThrough st hd b))
    ∧ (∀ (s : DState) (i now : Int) (force : Bool),
        (healthIsPenalized s.box i now && !force) = false →
        dget (check_single_key s i now force (.status 200)).box i = none
        ∧ dget (check_single_key s i now force (.status 200)).levels429 i = none
        ∧ dget (check_single_key s i now force (.status 200)).levels50x i
            = none) := by
  constructor
  · exact fun s i now st hint hd b hst => classify_not_retryable s i now st
      hint hd b hst
  · intro s i now force hskip
    unfold check_single_key
    rw [if_neg (by rw [hskip]; exact fun hcontr => Bool.false_ne_true hcontr)]
    exact ⟨dget_ddel_self _ _, dget_ddel_self _ _, dget_ddel_self _ _⟩

/-- Witness for the amended C2: a 404 response leaves a penalized state
untouched in the dispatcher path; a forced 200 health probe clears key 0. -/
theorem success_clears_penalty_only_in_health_path_witness :
    classify ⟨[(0, 9)], [(0, 1)], []⟩ 0 5 (.resp 404 none [] [])
      = (⟨[(0, 9)], [(0, 1)], []⟩, .passThrough 404 [] [])
    ∧ dget (check_single_key ⟨[(0, 9)], [(0, 1)], [(0, 1)]⟩ 0 5 true
        (.status 200)).box 0 = none :=
  ⟨success_clears_penalty_only_in_health_path.1 ⟨[(0, 9)], [(0, 1)], []⟩ 0 5
      404 none [] [] (by decide),
    (success_clears_penalty_only_in_health_path.2 ⟨[(0, 9)], [(0, 1)], [(0, 1)]⟩
      0 5 true (by decide)).1⟩

/-- C8 (counterexample): at `expires_at = now` (entry `(0, 5)`, `now = 5`)
the claimed criterion `expires_at > now` says key 0 is not penalized and
eligible, and the health worker indeed treats it as not penalized — but the
availability test of the selector (`expires_at < now`) still treats it as
penalized, and `get_best_key_index` passes it over in favour of key 1
(the claimed criterion, with equal usage, would pick key 0 by lowest index).
The criterion is not applied uniformly. -/
theorem penalized_iff_gt_now_counterexample :
    availableKey [((0 : Int), (5 : Int))] 5 0 = false
    ∧ healthIsPenalized [((0 : Int), (5 : Int))] 0 5 = false
    ∧ get_best_key_index 2 [((0 : Int), (5 : Int))] 5 (fun _ => 0) true []
        = some 1 :=
  ⟨rfl, rfl, rfl⟩

/-- C8 (amended): the two components do not share one criterion.  The health
worker treats key `i` as penalized iff an entry exists with
`expires_at > now`; the key selector treats `i` as unavailable iff an entry
exists with `expires_at ≥ now` — so a key whose entry expires exactly at
`now` is already eligible for the health worker but still penalized for the
selector. -/
theorem penalty_criterion_by_component (box : List (Int × Int)) (i now : Int) :
    (healthIsPenalized box i now = true
      ↔ ∃ e, dget box i = some e ∧ now < e)
    ∧ (availableKey box now i = false
      ↔ ∃ e, dget box i = some e ∧ now ≤ e) := by
  constructor
  · unfold healthIsPenalized
    cases hd : dget box i with
    | none => simp
    | some e =>
      simp only [decide_eq_true_eq, Option.some.injEq]
      constructor
      · intro hlt
        exact ⟨e, rfl, hlt⟩
      · rintro ⟨e', he', hlt⟩
        omega
  · unfold availableKey
    cases hd : dget box i with
    | none => simp
    | some e =>
      simp only [decide_eq_false_iff_not, not_lt, Option.some.injEq]
      constructor
      · intro hle
        exact ⟨e, rfl, hle⟩
      · rintro ⟨e', he', hle⟩
        omega

/-- C10 (counterexample): the penalize endpoint called with index `-1` on a
two-key pool is
accepted (no 404), but the operation is not applied to the key at position
`len + i = 1`: the penalty-box entry of key 1 stays absent while the penalty is
recorded under the raw dict key `-1`, which the selector (ranging over
`0..len-1`) never consults. -/
theorem negative_index_counterexample :
    (penalize_key_manually ["a", "b"] ⟨[], [], []⟩ (-1) 0).httpStatus = 200
    ∧ dget (penalize_key_manually ["a", "b"] ⟨[], [], []⟩ (-1) 0).state.box 1
        = none
    ∧ dget (penalize_key_manually ["a", "b"] ⟨[], [], []⟩ (-1) 0).state.box
        (-1) = some 900 :=
  ⟨rfl, rfl, rfl⟩

/-- C10 (amended): both operator endpoints validate the key index only
against the upper bound — `i ≥ len` is rejected with 404 and every negative
`i` with `-len ≤ i` is accepted.  For such `i` the reset endpoint does probe
the credential at position `len + i` (Python negative list indexing), but
both endpoints read and mutate the penalty dicts under the raw negative
index, so the penalty state of every actual pool key `0 ≤ j < len` is left
unchanged. -/
theorem negative_index_acceptance_and_effect (keys : List String) (s : DState)
    (i now : Int) (probe : ProbeOutcome)
    (hlo : -(keys.length : Int) ≤ i) (hneg : i < 0) :
    (penalize_key_manually keys s i now).httpStatus = 200
    ∧ (reset_key_penalty keys s i now probe).httpStatus = 200
    ∧ (reset_key_penalty keys s i now probe).probedKey
        = keys.get? ((keys.length : Int) + i).toNat
    ∧ (∀ j : Nat, j < keys.length →
        dget (penalize_key_manually keys s i now).state.box j = dget s.box j
        ∧ dget (penalize_key_manually keys s i now).state.levels429 j
            = dget s.levels429 j
        ∧ dget (reset_key_penalty keys s i now probe).state.box j
            = dget s.box j
        ∧ dget (reset_key_penalty keys s i now probe).state.levels429 j
            = dget s.levels429 j
        ∧ dget (reset_key_penalty keys s i now probe).state.levels50x j
            = dget s.levels50x j)
    ∧ (∀ i' : Int, (keys.length : Int) ≤ i' →
        (penalize_key_manually keys s i' now).httpStatus = 404
        ∧ (reset_key_penalty keys s i' now probe).httpStatus = 404) := by
  have hnotle : ¬ ((keys.length : Int) ≤ i) := by omega
  have hji : ∀ j : Nat, (j : Int) ≠ i := by
    intro j
    have : (0 : Int) ≤ (j : Int) := Int.ofNat_nonneg j
    omega
  have hpy : pyListGet keys i = keys.get? ((keys.length : Int) + i).toNat := by
    unfold pyListGet
    rw [if_neg (by omega), if_pos (by omega)]
  obtain ⟨key, hkey⟩ : ∃ key, pyListGet keys i = some key := by
    rw [hpy]
    have hlt : ((keys.length : Int) + i).toNat < keys.length := by omega
    exact ⟨keys.get ⟨_, hlt⟩, List.get?_eq_get hlt⟩
  have hpen :
      penalize_key_manually keys s i now
        = ⟨{ s with levels429 := dset s.levels429 i ((dget s.levels429 i).getD 0),
                    box := dset s.box i
                      (now + BACKOFF_STAGES.getD
                        ((dget s.levels429 i).getD 0).toNat 0) },
           200, some (BACKOFF_STAGES.getD ((dget s.levels429 i).getD 0).toNat 0)⟩ := by
    unfold penalize_key_manually
    rw [if_neg hnotle]
  have hresetStates : (reset_key_penalty keys s i now probe).probedKey = some key
      ∧ ∀ j : Nat,
        dget (reset_key_penalty keys s i now probe).state.box j = dget (ddel s.box i) j
        ∧ dget (reset_key_penalty keys s i now probe).state.levels429 j
            = dget (ddel s.levels429 i) j
        ∧ dget (reset_key_penalty keys s i now probe).state.levels50x j
            = dget (ddel s.levels50x i) j
        ∧ (reset_key_penalty keys s i now probe).httpStatus = 200 := by
    unfold reset_key_penalty
    rw [if_neg hnotle, hkey]
    cases probe with
    | exn msg => exact ⟨rfl, fun j => ⟨rfl, rfl, rfl, rfl⟩⟩
    | status code =>
      dsimp only
      by_cases hc : code = 429
      · rw [if_pos hc]
        refine ⟨rfl, fun j => ⟨?_, ?_, rfl, rfl⟩⟩
        · exact dget_dset_other _ _ _ _ (hji j)
        · exact dget_dset_other _ _ _ _ (hji j)
      · rw [if_neg hc]
        exact ⟨rfl, fun j => ⟨rfl, rfl, rfl, rfl⟩⟩
  refine ⟨?_, ?_, ?_, ?_, ?_⟩
  · rw [hpen]
  · exact ((hresetStates.2 0).2.2.2)
  · rw [hresetStates.1, ← hpy, hkey]
  · intro j hj
    refine ⟨?_, ?_, ?_, ?_, ?_⟩
    · rw [hpen]
      exact dget_dset_other _ _ _ _ (hji j)
    · rw [hpen]
      exact dget_dset_other _ _ _ _ (hji j)
    · rw [(hresetStates.2 j).1]
      exact dget_ddel_other _ _ _ (hji j)
    · rw [(hresetStates.2 j).2.1]
      exact dget_ddel_other _ _ _ (hji j)
    · rw [(hresetStates.2 j).2.2.1]
      exact dget_ddel_other _ _ _ (hji j)
  · intro i' hi'
    constructor
    · unfold penalize_key_manually
      rw [if_pos hi']
    · unfold reset_key_penalty
      rw [if_pos hi']

/-- Witness for the amended C10: two keys, `i = -1`, a 200 probe; the
endpoints accept, the probed credential is the one at position 1, and key
the penalty entry of key 1 survives. -/
theorem negative_index_acceptance_and_effect_witness :
    (penalize_key_manually ["a", "b"] ⟨[(1, 7)], [], []⟩ (-1) 0).httpStatus
      = 200
    ∧ dget (penalize_key_manually ["a", "b"] ⟨[(1, 7)], [], []⟩
        (-1) 0).state.box 1 = dget ([((1 : Int), (7 : Int))]) 1
    ∧ (reset_key_penalty ["a", "b"] ⟨[(1, 7)], [], []⟩ (-1) 0
        (.status 200)).probedKey
      = ["a", "b"].get? (((["a", "b"] : List String).length : Int) + -1).toNat := by
  have h := negative_index_acceptance_and_effect ["a", "b"]
    ⟨[(1, 7)], [], []⟩ (-1) 0 (.status 200) (by norm_num) (by norm_num)
  exact ⟨h.1, (h.2.2.2.1 1 (by norm_num)).1, h.2.2.1⟩

theorem scanLines_eq (loads : String → Option (List (String × Json))) :
    ∀ L : List String, scanLines loads L
      = ((L.filter (qualifiesLine loads)).head?).map (recordOfLine loads) := by
  intro L
  induction L with
  | nil => rfl
  | cons l rest ih =>
    by_cases h1 : (l.trim.isEmpty
        || !(l.trim.startsWith "\x7b" && l.trim.endsWith "\x7d")) = true
    · have hq : qualifiesLine loads l = false := by
        by_cases hA : l.trim.isEmpty = true
        · unfold qualifiesLine
          rw [hA]
          rfl
        · have h2 : (l.trim.startsWith "\x7b" && l.trim.endsWith "\x7d")
              = false := by
            revert h1 hA
            cases l.trim.isEmpty <;>
              cases l.trim.startsWith "\x7b" && l.trim.endsWith "\x7d" <;> simp
          unfold qualifiesLine
          rw [h2]
          simp
      simp only [scanLines]
      rw [if_pos h1, ih, List.filter_cons, if_neg (by simp [hq])]
    · have hne : l.trim.isEmpty = false := by
        revert h1
        cases hA : l.trim.isEmpty <;> simp
      have hbr : (l.trim.startsWith "\x7b" && l.trim.endsWith "\x7d")
          = true := by
        revert h1
        rw [hne]
        cases hB : l.trim.startsWith "\x7b" && l.trim.endsWith "\x7d" <;> simp
      cases hl : loads l.trim with
      | none =>
        have hq : qualifiesLine loads l = false := by
          unfold qualifiesLine
          rw [hl]
          simp
        simp only [scanLines]
        rw [if_neg h1, hl]
        dsimp only
        rw [ih, List.filter_cons, if_neg (by simp [hq])]
      | some fields =>
        by_cases hs : statsCondition fields = true
        · have hq : qualifiesLine loads l = true := by
            unfold qualifiesLine
            rw [hne, hbr, hl]
            simp [hs]
          simp only [scanLines]
          rw [if_neg h1, hl]
          dsimp only
          rw [if_pos hs, List.filter_cons, if_pos (by simp [hq])]
          simp only [List.head?_cons, Option.map_some']
          unfold recordOfLine
          rw [hl]
        · have hq : qualifiesLine loads l = false := by
            unfold qualifiesLine
            rw [hl]
            simp only [Bool.and_eq_false_iff]
            right
            revert hs
            cases statsCondition fields <;> simp
          simp only [scanLines]
          rw [if_neg h1, hl]
          dsimp only
          rw [if_neg hs, ih, List.filter_cons, if_neg (by simp [hq])]

theorem extractUsage_eq (loads : String → Option (List (String × Json)))
    (decoded_tail : String) :
    extractUsage loads decoded_tail
      = ((decoded_tail.trim.splitOn "\n").filter
          (qualifiesLine loads)).getLast?.map (recordOfLine loads) := by
  unfold extractUsage
  rw [scanLines_eq, List.filter_reverse, List.head?_reverse]

theorem takeLast_length_le (k : Nat) (l : List Nat) :
    (takeLast k l).length ≤ k := by
  unfold takeLast
  rw [List.length_drop]
  omega

theorem takeLast_append_takeLast (k : Nat) (a b : List Nat) :
    takeLast k (takeLast k a ++ b) = takeLast k (a ++ b) := by
  by_cases h : a.length ≤ k
  · unfold takeLast
    rw [Nat.sub_eq_zero_of_le h, List.drop_zero]
  · have hk : k ≤ a.length := by omega
    unfold takeLast
    rw [List.length_append, List.length_append, List.length_drop,
      List.drop_append_eq_append_drop, List.drop_append_eq_append_drop,
      List.drop_drop, List.length_drop]
    congr 2 <;> omega

theorem streamStep_fold_tail (chunks : List (List Nat)) :
    ∀ (ys : List (List Nat)) (t : List Nat), t.length ≤ 4096 →
    (chunks.foldl streamStep (ys, t)).2 = takeLast 4096 (t ++ chunks.flatten) := by
  induction chunks with
  | nil =>
    intro ys t ht
    simp only [List.foldl_nil, List.flatten_nil, List.append_nil]
    unfold takeLast
    rw [Nat.sub_eq_zero_of_le ht, List.drop_zero]
  | cons c cs ih =>
    intro ys t ht
    simp only [List.foldl_cons, streamStep, List.flatten_cons]
    rw [ih _ _ (takeLast_length_le _ _), takeLast_append_takeLast,
      List.append_assoc]

/-- C7: for every upstream body, the tail buffer at end-of-stream holds
exactly the last 4096 bytes of the concatenated body; the parser records
exactly one usage row iff some newline-separated line of the lossily
decoded, stripped tail qualifies — nonempty and brace-delimited after
stripping, decoded by `json.loads` to an object whose `done` is truthy or
which has an `eval_count` field — and the recorded row comes from the last
such line with `model` defaulting to `"unknown"` and the two counts
defaulting to 0; with no qualifying line, zero rows. -/
theorem tail_parser_records_iff_qualifying_line
    (loads : String → Option (List (String × Json)))
    (decode : List Nat → String) (chunks : List (List Nat)) :
    (chunks.foldl streamStep ([], [])).2 = takeLast 4096 chunks.flatten
    ∧ (log_stream_usage loads decode chunks).2
      = (((decode (takeLast 4096 chunks.flatten)).trim.splitOn "\n").filter
          (qualifiesLine loads)).getLast?.map (recordOfLine loads)
    ∧ ((log_stream_usage loads decode chunks).2.isSome ↔
        ((decode (takeLast 4096 chunks.flatten)).trim.splitOn "\n").filter
          (qualifiesLine loads) ≠ []) := by
  have htail : (chunks.foldl streamStep ([], [])).2
      = takeLast 4096 chunks.flatten := by
    have h := streamStep_fold_tail chunks [] [] (by simp)
    simpa using h
  have hrec : (log_stream_usage loads decode chunks).2
      = (((decode (takeLast 4096 chunks.flatten)).trim.splitOn "\n").filter
          (qualifiesLine loads)).getLast?.map (recordOfLine loads) := by
    unfold log_stream_usage
    rw [htail, extractUsage_eq]
  refine ⟨htail, hrec, ?_⟩
  rw [hrec, Option.isSome_map']
  rw [List.getLast?_isSome]

end OllamaProxy

